import Mathlib

/-
Verification of the md-parser line tokenizer (src/tokenizer.rs, src/main.rs).

The tokenizer is embedded shallowly:
  * a Rust `String` is a `List Char`; the UTF-8 byte structure needed by
    Rust's byte-indexed slicing `&s[a..b]` is recovered from `Char.utf8Size`;
  * `Tokenizer::next`, a `loop` over `(current_char, state)`, becomes the
    fuel-indexed function `nextAux` (one fuel unit per loop iteration);
  * fallible operations are explicit: `NextResult.panic` models a Rust
    panic (string slicing off a char boundary), `NextResult.outOfFuel`
    models an iteration budget that ran out (the real loop would still be
    running);
  * the two regex patterns are modelled by `headerCapture` and
    `ulistCapture`, which compute exactly what the code reads off the
    captures: the length of group 1 (resp. the byte length of group 0).
-/

namespace MdParser

/-- Models the Rust enum `Token` of src/tokenizer.rs. `Header`'s payload is
`u8` in the source; the value stored is `caps[1].len()` for a regex group
matching 1 to 6 characters, so a `Nat` carries it without truncation. -/
inductive Token where
  | Blank : Token
  | HorizontalRule : Token
  | UnorderedList : Token
  | Paragraph : Token
  | Bold : Token
  | Italic : Token
  | Strikethrough : Token
  | CodeBlock : String → Token
  | Header : Nat → Token
  | Literal : String → Token
  deriving DecidableEq, Repr

/-- Models the Rust enum `State` of src/tokenizer.rs. -/
inductive State where
  | Start : State
  | Process : State
  | Text : State
  | End : State
  deriving DecidableEq, Repr

/-- Models the struct `Tokenizer`: the line, the cursor and the state. The
two compiled regexes of the struct are constants and are modelled by the
functions `headerCapture` and `ulistCapture` below. The Rust code reads
characters with `self.line.chars().nth(self.cursor)`, so `cursor` counts
characters; the same field is also used as a byte index by the string
slices `self.line[literal_start..self.cursor]`, and the embedding keeps
that double use. -/
structure Tokenizer where
  line : List Char
  cursor : Nat
  state : State
  deriving DecidableEq, Repr

/-- Models `Tokenizer::new`: cursor 0, state `Start`. -/
def Tokenizer.new (line : List Char) : Tokenizer :=
  { line := line, cursor := 0, state := State.Start }

/-- The Unicode White_Space set: what the regex crate's `\s` matches and
what `char::is_whitespace` / `str::trim_start` test in Rust. -/
def isWhitespaceChar (c : Char) : Bool :=
  let n := c.toNat
  n == 0x9 || n == 0xA || n == 0xB || n == 0xC || n == 0xD || n == 0x20 ||
  n == 0x85 || n == 0xA0 || n == 0x1680 || (0x2000 ≤ n && n ≤ 0x200A) ||
  n == 0x2028 || n == 0x2029 || n == 0x202F || n == 0x205F || n == 0x3000

/-- UTF-8 byte length of a character list (a Rust `str::len`). -/
def byteLen (cs : List Char) : Nat :=
  (cs.map Char.utf8Size).sum

/-- Drop `n` BYTES from a character list: `some` exactly when `n` lands on a
character boundary at or before the end, as Rust byte indexing demands. -/
def byteDrop (cs : List Char) (n : Nat) : Option (List Char) :=
  match n, cs with
  | 0, cs => some cs
  | _+1, [] => none
  | n+1, c :: cs =>
      if c.utf8Size ≤ n + 1 then byteDrop cs (n + 1 - c.utf8Size) else none

/-- Take `n` BYTES from a character list: `some` exactly when `n` lands on a
character boundary at or before the end. -/
def byteTake (cs : List Char) (n : Nat) : Option (List Char) :=
  match n, cs with
  | 0, _ => some []
  | _+1, [] => none
  | n+1, c :: cs =>
      if c.utf8Size ≤ n + 1 then (byteTake cs (n + 1 - c.utf8Size)).map (c :: ·) else none

/-- Models the Rust byte slice `&s[a..b]`: `some` substring when `a ≤ b`,
both indices are on character boundaries and `b` is within the string;
`none` models the panic Rust raises otherwise. -/
def byteSlice (cs : List Char) (a b : Nat) : Option (List Char) :=
  if a ≤ b then (byteDrop cs a).bind (fun t => byteTake t (b - a)) else none

/-- Models `self.header_pattern.captures(&self.line)` for the pattern
`^(#{1,6})[^#]\s*(.+)$` as far as the code consumes it: `some h` with `h`
the length of capture group 1 (the run of leading hash characters) exactly
when the pattern matches, `none` otherwise. Group 1 is forced to the full
leading hash run (a shorter greedy choice would put `#` under `[^#]`), so
the pattern matches exactly when that run has length 1 to 6, a character
follows it, and after additionally skipping one character for `[^#]` some
whitespace prefix of length `w` (regex `\s*`) leaves a non-empty remainder
free of newlines for `(.+)$`. -/
def headerTail (r : List Char) : Bool :=
  (List.range r.length).any (fun w =>
    ((r.take w).all isWhitespaceChar) && ((r.drop w).all (fun c => c ≠ '\n')))

/-- The header pattern's match result: see `headerTail`. -/
def headerCapture (cs : List Char) : Option Nat :=
  let h := (cs.takeWhile (fun c => c = '#')).length
  if 1 ≤ h ∧ h ≤ 6 ∧ h + 1 ≤ cs.length ∧ headerTail (cs.drop (h + 1)) then some h
  else none

/-- Models `self.ulist_pattern.captures(&self.line)` for the pattern
`^\s*([-*+])\s+` as far as the code consumes it: `some n` with `n` the BYTE
length of capture group 0 (the whole match) exactly when the pattern
matches. `\s*` is forced to the maximal whitespace prefix (whitespace is
never a list marker), then one marker character, then `\s+` greedily takes
the maximal whitespace run, which must be non-empty. -/
def ulistCapture (cs : List Char) : Option Nat :=
  let lead := cs.takeWhile isWhitespaceChar
  match cs.drop lead.length with
  | [] => none
  | m :: rest =>
    if m = '-' ∨ m = '*' ∨ m = '+' then
      let sp := rest.takeWhile isWhitespaceChar
      if 1 ≤ sp.length then some (byteLen lead + m.utf8Size + byteLen sp) else none
    else none

/-- Models `Tokenizer::handle_header`: on a regex match, `Header(level)`
with the cursor advanced by `caps[1].len() + 1` (the hash run is ASCII, so
its byte length equals its character count); otherwise `Paragraph` with the
tokenizer unchanged. -/
def handleHeader (tk : Tokenizer) : Token × Tokenizer :=
  match headerCapture tk.line with
  | none => (Token.Paragraph, tk)
  | some h => (Token.Header h, { tk with cursor := tk.cursor + h + 1 })

/-- Models `Tokenizer::handle_text_modifier`. `next` is
`chars().nth(cursor + 1).unwrap_or_default()`, default char `'\x00'`. The
source adds 2 to the cursor and subtracts 1 back in the not-doubled arm,
a net advance of 1. The Rust `match (current, next)` with literal patterns
is the ordered test chain below. -/
def handleTextModifier (tk : Tokenizer) : Option Token × Tokenizer :=
  match tk.line[tk.cursor]? with
  | none => (none, tk)
  | some current =>
    let nxt := (tk.line[tk.cursor + 1]?).getD (Char.ofNat 0)
    if current = '~' ∧ nxt = '~' then
      (some Token.Strikethrough, { tk with cursor := tk.cursor + 2 })
    else if current = '*' ∧ nxt = '*' then
      (some Token.Bold, { tk with cursor := tk.cursor + 2 })
    else if current = '_' ∧ nxt = '_' then
      (some Token.Bold, { tk with cursor := tk.cursor + 2 })
    else
      (some Token.Italic, { tk with cursor := tk.cursor + 1 })

/-- Models `Tokenizer::handle_ulist`: on a regex match, `UnorderedList`
with the cursor advanced by `caps[0].len()` (a BYTE length, though the
cursor is read as a character index — the source's unit mismatch is kept). -/
def handleUlist (tk : Tokenizer) : Option Token × Tokenizer :=
  match ulistCapture tk.line with
  | none => (none, tk)
  | some n => (some Token.UnorderedList, { tk with cursor := tk.cursor + n })

/-- Models `Tokenizer::handle_horizontal_rule`: the whole line, compared
verbatim, must equal one of the three canonical rules. -/
def handleHorizontalRule (tk : Tokenizer) : Option Token :=
  if tk.line ≠ "---".data ∧ tk.line ≠ "___".data ∧ tk.line ≠ "***".data then none
  else some Token.HorizontalRule

/-- Result of one `next()` call: a normal return of `Option<Token>` with
the updated tokenizer, a panic (byte slice off a character boundary), or an
exhausted iteration budget (the source's `loop` would still be running). -/
inductive NextResult where
  | panic : NextResult
  | outOfFuel : NextResult
  | ret : Option Token → Tokenizer → NextResult
  deriving DecidableEq, Repr

/-- The body of `Tokenizer::next`'s `loop`, one fuel unit per iteration.
`literalStart` is the local `literal_start`. Each branch mirrors, in order,
one arm of the source's `match (current, self.state)`, preceded by the
end-of-line `let ... else` block. -/
def nextAux : Nat → Tokenizer → Nat → NextResult
  | 0, _, _ => NextResult.outOfFuel
  | fuel+1, tk, literalStart =>
    match tk.line[tk.cursor]? with
    | none =>
      -- end of line: emit by state, then `self.state = End`
      match tk.state with
      | State.Text =>
        match byteSlice tk.line literalStart tk.cursor with
        | none => NextResult.panic
        | some lit =>
            NextResult.ret (some (Token.Literal (String.mk lit))) { tk with state := State.End }
      | State.Start => NextResult.ret (some Token.Blank) { tk with state := State.End }
      | _ => NextResult.ret none { tk with state := State.End }
    | some current =>
      if current = '#' ∧ tk.state = State.Start then
        -- arm ('#', Start): state := Process, return handle_header()
        match handleHeader { tk with state := State.Process } with
        | (t, tk2) => NextResult.ret (some t) tk2
      else if (current = ' ' ∨ current = '\t' ∨ current = '-' ∨ current = '_' ∨
               current = '*' ∨ current = '+') ∧ tk.state = State.Start then
        -- arm (' '|'\t'|'-'|'_'|'*'|'+', Start)
        match handleHorizontalRule tk with
        | some t => NextResult.ret (some t) { tk with state := State.End }
        | none =>
          match handleUlist { tk with state := State.Process } with
          | (some t, tk2) => NextResult.ret (some t) tk2
          | (none, tk2) => nextAux fuel tk2 literalStart
      else if current = '`' ∧ tk.state = State.Start then
        -- arm ('`', Start): only acts when the line starts with the fence
        if ['`', '`', '`'].isPrefixOf tk.line then
          let language := ((byteDrop tk.line 3).getD []).dropWhile isWhitespaceChar
          NextResult.ret (some (Token.CodeBlock (String.mk language))) { tk with state := State.End }
        else
          nextAux fuel tk literalStart
      else if tk.state = State.Start then
        -- arm (_, Start): Paragraph, cursor untouched
        NextResult.ret (some Token.Paragraph) { tk with state := State.Process }
      else if (current = '_' ∨ current = '*' ∨ current = '~') ∧ tk.state = State.Process then
        -- arm ('_'|'*'|'~', Process): return handle_text_modifier()
        match handleTextModifier tk with
        | (t, tk2) => NextResult.ret t tk2
      else if tk.state = State.Process then
        -- arm (_, Process): start a literal run
        nextAux fuel { tk with state := State.Text } tk.cursor
      else if (current = '_' ∨ current = '*' ∨ current = '~') ∧ tk.state = State.Text then
        -- arm ('_'|'*'|'~', Text): emit the accumulated literal
        match byteSlice tk.line literalStart tk.cursor with
        | none => NextResult.panic
        | some lit =>
            NextResult.ret (some (Token.Literal (String.mk lit))) { tk with state := State.Process }
      else if tk.state = State.Text then
        -- arm (_, Text): advance the cursor
        nextAux fuel { tk with cursor := tk.cursor + 1 } literalStart
      else
        -- arm (_, _): return None (state is End here)
        NextResult.ret none tk

/-- Models one call of `Tokenizer::next`: `literal_start` starts at 0. -/
def next (fuel : Nat) (tk : Tokenizer) : NextResult :=
  nextAux fuel tk 0

/-- Result of draining a line as `main` does (`while let Some(token) = tokenizer.next()`). -/
inductive RunResult where
  | panic : RunResult
  | outOfFuel : RunResult
  | done : List Token → RunResult
  deriving DecidableEq, Repr

/-- Drain `next()` into a token list, as the loop in src/main.rs does. -/
def runAux : Nat → Tokenizer → RunResult
  | 0, _ => RunResult.outOfFuel
  | fuel+1, tk =>
    match next (fuel+1) tk with
    | NextResult.panic => RunResult.panic
    | NextResult.outOfFuel => RunResult.outOfFuel
    | NextResult.ret none _ => RunResult.done []
    | NextResult.ret (some t) tk2 =>
      match runAux fuel tk2 with
      | RunResult.done ts => RunResult.done (t :: ts)
      | r => r

/-- Tokenize one line from a fresh `Tokenizer`, as src/main.rs does per
input line (`Tokenizer::new(line)` then the drain loop). -/
def tokenizeLine (s : String) (fuel : Nat) : RunResult :=
  runAux fuel (Tokenizer.new s.data)

/-! ### Basic facts about the handler functions -/

theorem handleTextModifier_state (tk : Tokenizer) :
    ((handleTextModifier tk).2).state = tk.state := by
  unfold handleTextModifier
  split
  · rfl
  · dsimp only
    split
    · rfl
    · split
      · rfl
      · split
        · rfl
        · rfl

theorem handleTextModifier_fst (tk : Tokenizer) (c : Char)
    (h : tk.line[tk.cursor]? = some c) :
    (handleTextModifier tk).1 = some Token.Strikethrough ∨
    (handleTextModifier tk).1 = some Token.Bold ∨
    (handleTextModifier tk).1 = some Token.Italic := by
  unfold handleTextModifier
  rw [h]
  dsimp only
  split
  · exact Or.inl rfl
  · split
    · exact Or.inr (Or.inl rfl)
    · split
      · exact Or.inr (Or.inl rfl)
      · exact Or.inr (Or.inr rfl)

theorem handleTextModifier_fst_none (tk : Tokenizer)
    (h : (handleTextModifier tk).1 = none) : tk.line[tk.cursor]? = none := by
  unfold handleTextModifier at h
  split at h
  · assumption
  · dsimp only at h
    split at h
    · exact absurd h (by simp)
    · split at h
      · exact absurd h (by simp)
      · split at h
        · exact absurd h (by simp)
        · exact absurd h (by simp)

theorem handleHeader_state (tk : Tokenizer) :
    ((handleHeader tk).2).state = tk.state := by
  unfold handleHeader
  split <;> rfl

theorem handleHeader_fst (tk : Tokenizer) :
    (handleHeader tk).1 = Token.Paragraph ∨ ∃ h, (handleHeader tk).1 = Token.Header h := by
  unfold handleHeader
  split
  · exact Or.inl rfl
  · exact Or.inr ⟨_, rfl⟩

theorem handleUlist_state (tk : Tokenizer) :
    ((handleUlist tk).2).state = tk.state := by
  unfold handleUlist
  split <;> rfl

theorem handleUlist_fst (tk : Tokenizer) :
    (handleUlist tk).1 = none ∨ (handleUlist tk).1 = some Token.UnorderedList := by
  unfold handleUlist
  split
  · exact Or.inl rfl
  · exact Or.inr rfl

theorem handleHorizontalRule_some (tk : Tokenizer) (t : Token)
    (h : handleHorizontalRule tk = some t) :
    t = Token.HorizontalRule ∧
      (tk.line = "---".data ∨ tk.line = "___".data ∨ tk.line = "***".data) := by
  unfold handleHorizontalRule at h
  split at h
  · exact absurd h (by simp)
  · rename_i hcond
    refine ⟨by injection h with h2; exact h2.symm, ?_⟩
    by_contra hc
    push_neg at hc
    exact hcond ⟨hc.1, hc.2.1, hc.2.2⟩

/-! ### The state left behind by a `next()` return -/

/-- Every normal return of the scan loop leaves the state off `Start`, and a
sentinel return leaves it at `End`. -/
theorem nextAux_ret_state : ∀ fuel tk ls t tk', nextAux fuel tk ls = NextResult.ret t tk' →
    tk'.state ≠ State.Start ∧ (t = none → tk'.state = State.End) := by
  intro fuel
  induction fuel with
  | zero => intro tk ls t tk' h; exact absurd h (by simp [nextAux])
  | succ f ih =>
    intro tk ls t tk' h
    rw [nextAux] at h
    split at h
    · -- end of line
      split at h
      · -- state Text: the literal byte slice
        split at h
        · exact absurd h (by simp)
        · injection h with h1 h2
          subst h2; subst h1
          exact ⟨by simp, by simp⟩
      · -- state Start: Blank
        injection h with h1 h2
        subst h2; subst h1
        exact ⟨by simp, by simp⟩
      · -- other states: sentinel
        injection h with h1 h2
        subst h2
        exact ⟨by simp, fun _ => by simp⟩
    · -- a current character
      split at h
      · -- arm ('#', Start)
        split at h
        rename_i t2 tk2 heq
        injection h with h1 h2
        subst h2; subst h1
        have hst : tk2.state = State.Process := by
          have hh := handleHeader_state { tk with state := State.Process }
          rw [heq] at hh
          simpa using hh
        exact ⟨by simp [hst], by simp⟩
      · split at h
        · -- horizontal rule matched
          split at h
          · injection h with h1 h2
            subst h2; subst h1
            exact ⟨by simp, by simp⟩
          · -- unordered list
            split at h
            · rename_i t2 tk2 heq
              injection h with h1 h2
              subst h2; subst h1
              have hst : tk2.state = State.Process := by
                have hh := handleUlist_state { tk with state := State.Process }
                rw [heq] at hh
                simpa using hh
              exact ⟨by simp [hst], by simp⟩
            · exact ih _ _ _ _ h
        · split at h
          · -- arm ('`', Start), fence present
            split at h
            · injection h with h1 h2
              subst h2; subst h1
              exact ⟨by simp, by simp⟩
            · exact ih _ _ _ _ h
          · split at h
            · -- arm (_, Start): Paragraph
              injection h with h1 h2
              subst h2; subst h1
              exact ⟨by simp, by simp⟩
            · split at h
              · -- arm ('_'|'*'|'~', Process)
                rename_i hne1 hne2 hne3 hne4 hcond
                split at h
                rename_i t2 tk2 heq
                injection h with h1 h2
                subst h2; subst h1
                have hst : tk2.state = State.Process := by
                  have hh := handleTextModifier_state tk
                  rw [heq] at hh
                  rw [hcond.2] at hh
                  simpa using hh
                constructor
                · simp [hst]
                · intro hn
                  have hfn : (handleTextModifier tk).1 = none := by rw [heq]; exact hn
                  have hgn := handleTextModifier_fst_none tk hfn
                  simp_all
              · split at h
                · -- arm (_, Process): start literal run
                  exact ih _ _ _ _ h
                · split at h
                  · -- arm ('_'|'*'|'~', Text): emit literal
                    split at h
                    · exact absurd h (by simp)
                    · injection h with h1 h2
                      subst h2; subst h1
                      exact ⟨by simp, by simp⟩
                  · split at h
                    · -- arm (_, Text): advance
                      exact ih _ _ _ _ h
                    · -- arm (_, _): state is End, sentinel with tk unchanged
                      rename_i hne1 hne2 hne3 hne4 hne5 hne6 hne7 hne8
                      injection h with h1 h2
                      subst h2
                      have hend : tk.state = State.End := by
                        cases hs : tk.state
                        · exact absurd hs hne4
                        · exact absurd hs hne6
                        · exact absurd hs hne8
                        · rfl
                      exact ⟨by simp [hend], fun _ => hend⟩

/-- In state `End` a call returns the sentinel and changes nothing. -/
theorem nextAux_end (fuel : Nat) (tk : Tokenizer) (ls : Nat) (h : tk.state = State.End) :
    nextAux (fuel+1) tk ls = NextResult.ret none tk := by
  obtain ⟨line, cursor, st⟩ := tk
  simp only at h
  subst h
  rw [nextAux]
  split
  · rfl
  · simp

theorem handleHeader_line (tk : Tokenizer) : ((handleHeader tk).2).line = tk.line := by
  unfold handleHeader
  split <;> rfl

theorem handleUlist_line (tk : Tokenizer) : ((handleUlist tk).2).line = tk.line := by
  unfold handleUlist
  split <;> rfl

theorem handleTextModifier_line (tk : Tokenizer) :
    ((handleTextModifier tk).2).line = tk.line := by
  unfold handleTextModifier
  split
  · rfl
  · dsimp only
    split
    · rfl
    · split
      · rfl
      · split
        · rfl
        · rfl

/-- Off the `Start` state the scan loop never returns a `Header`,
`UnorderedList` or `HorizontalRule` token. -/
theorem nextAux_not_start_tokens : ∀ fuel tk ls t tk', tk.state ≠ State.Start →
    nextAux fuel tk ls = NextResult.ret (some t) tk' →
    (∀ lvl, t ≠ Token.Header lvl) ∧ t ≠ Token.UnorderedList ∧ t ≠ Token.HorizontalRule := by
  intro fuel
  induction fuel with
  | zero => intro tk ls t tk' _ h; exact absurd h (by simp [nextAux])
  | succ f ih =>
    intro tk ls t tk' hs h
    rw [nextAux] at h
    split at h
    · -- end of line
      split at h
      · -- Text: Literal
        split at h
        · exact absurd h (by simp)
        · injection h with h1 _
          injection h1 with h1
          subst h1
          exact ⟨by simp, by simp, by simp⟩
      · -- Start: contradiction with hs
        rename_i hst
        exact absurd hst hs
      · exact absurd h (by simp)
    · -- a current character: the four Start arms are unreachable
      rename_i current hcur
      rw [if_neg (show ¬(current = '#' ∧ tk.state = State.Start) from fun hx => hs hx.2)] at h
      rw [if_neg (show ¬((current = ' ' ∨ current = '\t' ∨ current = '-' ∨ current = '_' ∨
            current = '*' ∨ current = '+') ∧ tk.state = State.Start) from fun hx => hs hx.2)] at h
      rw [if_neg (show ¬(current = '`' ∧ tk.state = State.Start) from fun hx => hs hx.2)] at h
      rw [if_neg hs] at h
      split at h
      · -- text modifier: the token is Strikethrough, Bold or Italic
        split at h
        rename_i t2 tk2 heq
        injection h with h1 _
        subst h1
        rcases handleTextModifier_fst tk current hcur with h3 | h3 | h3 <;>
          (rw [heq] at h3; simp only at h3; injection h3 with h3; subst h3;
           exact ⟨by simp, by simp, by simp⟩)
      · split at h
        · -- Process → Text recursion
          exact ih _ _ _ _ (by simp) h
        · split at h
          · -- Text marker: Literal
            split at h
            · exact absurd h (by simp)
            · injection h with h1 _
              injection h1 with h1
              subst h1
              exact ⟨by simp, by simp, by simp⟩
          · split at h
            · -- Text advance recursion
              exact ih _ _ _ _ (by simpa using hs) h
            · exact absurd h (by simp)

/-- A `HorizontalRule` return forces the line to be one of the three
canonical rule strings. -/
theorem nextAux_hr_line : ∀ fuel tk ls tk',
    nextAux fuel tk ls = NextResult.ret (some Token.HorizontalRule) tk' →
    tk.line = "---".data ∨ tk.line = "___".data ∨ tk.line = "***".data := by
  intro fuel
  induction fuel with
  | zero => intro tk ls tk' h; exact absurd h (by simp [nextAux])
  | succ f ih =>
    intro tk ls tk' h
    rw [nextAux] at h
    split at h
    · -- end of line: Literal, Blank or the sentinel, never HorizontalRule
      split at h
      · split at h
        · exact absurd h (by simp)
        · injection h with h1 _
          exact absurd h1 (by simp)
      · injection h with h1 _
        exact absurd h1 (by simp)
      · exact absurd h (by simp)
    · rename_i current hcur
      split at h
      · -- arm ('#', Start): handle_header yields Paragraph or Header
        split at h
        rename_i t2 tk2 heq
        injection h with h1 _
        injection h1 with h1
        rcases handleHeader_fst { tk with state := State.Process } with h3 | ⟨lvl, h3⟩ <;>
          (rw [heq] at h3; simp only at h3; rw [h3] at h1; exact absurd h1 (by simp))
      · split at h
        · -- arm (' '|'\t'|'-'|'_'|'*'|'+', Start)
          split at h
          · -- handle_horizontal_rule matched: the line is canonical
            rename_i t2 heq
            exact (handleHorizontalRule_some tk t2 heq).2
          · -- handle_ulist
            split at h
            · rename_i t2 tk2 heq
              injection h with h1 _
              injection h1 with h1
              have h3 := handleUlist_fst { tk with state := State.Process }
              rw [heq] at h3
              simp only at h3
              rcases h3 with h3 | h3
              · exact absurd h3 (by simp)
              · injection h3 with h3
                rw [h3] at h1
                exact absurd h1 (by simp)
            · rename_i tk2 heq
              have hline : tk2.line = tk.line := by
                have hl := handleUlist_line { tk with state := State.Process }
                rw [heq] at hl
                simpa using hl
              rw [← hline]
              exact ih _ _ _ h
        · split at h
          · -- arm ('`', Start)
            split at h
            · injection h with h1 _
              exact absurd h1 (by simp)
            · exact ih _ _ _ h
          · split at h
            · -- arm (_, Start): Paragraph
              injection h with h1 _
              exact absurd h1 (by simp)
            · split at h
              · -- arm ('_'|'*'|'~', Process): Strikethrough, Bold or Italic
                split at h
                rename_i t2 tk2 heq
                injection h with h1 _
                rcases handleTextModifier_fst tk current hcur with h3 | h3 | h3 <;>
                  (rw [heq] at h3; simp only at h3; rw [h3] at h1; exact absurd h1 (by simp))
              · split at h
                · exact ih { tk with state := State.Text } tk.cursor tk' h
                · split at h
                  · -- arm ('_'|'*'|'~', Text): Literal
                    split at h
                    · exact absurd h (by simp)
                    · injection h with h1 _
                      exact absurd h1 (by simp)
                  · split at h
                    · exact ih { tk with cursor := tk.cursor + 1 } ls tk' h
                    · exact absurd h (by simp)

/-! ### First-step lemmas from the `Start` state -/

theorem headerCapture_first_char (cs : List Char) (h : Nat)
    (hc : headerCapture cs = some h) : cs[0]? = some '#' ∧ 1 ≤ h := by
  unfold headerCapture at hc
  dsimp only at hc
  split at hc
  · rename_i hcond
    injection hc with hc
    subst hc
    refine ⟨?_, hcond.1⟩
    cases cs with
    | nil => simp at hcond
    | cons c rest =>
      by_cases hch : c = '#'
      · simp [hch]
      · rw [List.takeWhile_cons] at hcond
        simp [hch] at hcond
  · exact absurd hc (by simp)

/-- From `Start`, a line the header regex matches with `h` leading hashes is
answered by `Header h`, the cursor moving to `h + 1`. -/
theorem header_first_step (cs : List Char) (h fuel ls : Nat)
    (hc : headerCapture cs = some h) :
    nextAux (fuel+1) (Tokenizer.new cs) ls =
      NextResult.ret (some (Token.Header h)) ⟨cs, h + 1, State.Process⟩ := by
  obtain ⟨hfirst, _⟩ := headerCapture_first_char cs h hc
  rw [nextAux]
  simp only [Tokenizer.new]
  rw [hfirst]
  simp only [reduceIte, and_true, reduceCtorEq, if_pos (And.intro rfl rfl)]
  have : handleHeader ⟨cs, 0, State.Process⟩ =
      (Token.Header h, ⟨cs, h + 1, State.Process⟩) := by
    unfold handleHeader
    simp only
    rw [hc]
    simp
  rw [this]

/-- From `Start`, a line whose first character triggers none of the
structural arms is answered by `Paragraph` with the cursor unchanged. -/
theorem paragraph_first_step (c : Char) (rest : List Char) (fuel ls : Nat)
    (h1 : c ≠ '#') (h2 : c ≠ '`') (h3 : c ≠ ' ') (h4 : c ≠ '\t') (h5 : c ≠ '-')
    (h6 : c ≠ '_') (h7 : c ≠ '*') (h8 : c ≠ '+') :
    nextAux (fuel+1) (Tokenizer.new (c :: rest)) ls =
      NextResult.ret (some Token.Paragraph) ⟨c :: rest, 0, State.Process⟩ := by
  rw [nextAux]
  simp [Tokenizer.new, h1, h2, h3, h4, h5, h6, h7, h8]

/-- From `Start`, a line starting with `#` that the header regex rejects is
answered by `Paragraph` with the cursor unchanged. -/
theorem header_fail_step (cs : List Char) (fuel ls : Nat)
    (hfirst : cs[0]? = some '#') (hc : headerCapture cs = none) :
    nextAux (fuel+1) (Tokenizer.new cs) ls =
      NextResult.ret (some Token.Paragraph) ⟨cs, 0, State.Process⟩ := by
  rw [nextAux]
  simp only [Tokenizer.new]
  rw [hfirst]
  simp [handleHeader, hc]

/-! ### The claims -/

/-- C1 (amended): the code keeps no state across lines — there is no
`set_line` and no `CodeBlock` member of `State`, and src/main.rs builds a
fresh `Tokenizer` per line — so the four-line sequence tokenizes to
`CodeBlock "rust"`; `Paragraph`, `Literal "fn main() \x7b"`; `Paragraph`,
`Literal "\x7d"`; `CodeBlock ""`: each interior line gets structural
recognition again and yields a `Paragraph` before its `Literal`. -/
theorem c1_per_line_code_fence :
    tokenizeLine "```rust" 100 = RunResult.done [Token.CodeBlock "rust"] ∧
    tokenizeLine "fn main() \x7b" 100 =
      RunResult.done [Token.Paragraph, Token.Literal "fn main() \x7b"] ∧
    tokenizeLine "\x7d" 100 = RunResult.done [Token.Paragraph, Token.Literal "\x7d"] ∧
    tokenizeLine "```" 100 = RunResult.done [Token.CodeBlock ""] :=
  ⟨rfl, rfl, rfl, rfl⟩

/-- C1 (counterexample): the interior line of the claimed fenced block does
not tokenize to exactly one `Literal` of the full text — a `Paragraph`
precedes it, so structural recognition is not suppressed. -/
theorem c1_interior_line_counterexample :
    tokenizeLine "fn main() \x7b" 100 =
      RunResult.done [Token.Paragraph, Token.Literal "fn main() \x7b"] ∧
    RunResult.done [Token.Paragraph, Token.Literal "fn main() \x7b"] ≠
      RunResult.done [Token.Literal "fn main() \x7b"] :=
  ⟨rfl, by decide⟩

/-- C2: the claim that `next()` never panics on any Unicode string fails:
on the line made of the two characters U+00E9 and tilde, the first call
returns `Paragraph` and the second slices the line at byte 1, inside the
two-byte character, which panics in Rust (`cursor` counts characters but
the literal slice `self.line[literal_start..self.cursor]` indexes bytes). -/
theorem c2_multibyte_slice_panic :
    next 100 (Tokenizer.new "é~".data) =
      NextResult.ret (some Token.Paragraph) ⟨"é~".data, 0, State.Process⟩ ∧
    next 100 ⟨"é~".data, 0, State.Process⟩ = NextResult.panic ∧
    tokenizeLine "é~" 100 = RunResult.panic :=
  ⟨rfl, rfl, rfl⟩

/-- C3: the claim that every `next()` call terminates fails: on a line
starting with a backtick that does not start with the full fence, the
`('\x60', Start)` arm of the source's `match` neither returns nor advances,
so the loop never exits — here, no iteration budget ever suffices. -/
theorem c3_backtick_divergence :
    ∀ fuel, next fuel (Tokenizer.new "`x".data) = NextResult.outOfFuel := by
  intro fuel
  induction fuel with
  | zero => rfl
  | succ f ih => exact ih

/-- C4 (amended): a non-empty line whose first character is none of the
structural trigger characters (hash, backtick, space, tab, dash,
underscore, star, plus) yields `Paragraph` first with the cursor
unchanged, and so does a line starting with hash that the header regex
rejects; but a line starting with a trigger character whose rule and list
recognizers both fail does not yield `Paragraph` — it falls straight
through to inline processing. -/
theorem c4_paragraph_fallback :
    (∀ c rest fuel ls, c ≠ '#' → c ≠ '`' → c ≠ ' ' → c ≠ '\t' → c ≠ '-' →
      c ≠ '_' → c ≠ '*' → c ≠ '+' →
      nextAux (fuel+1) (Tokenizer.new (c :: rest)) ls =
        NextResult.ret (some Token.Paragraph) ⟨c :: rest, 0, State.Process⟩) ∧
    (∀ cs fuel ls, cs[0]? = some '#' → headerCapture cs = none →
      nextAux (fuel+1) (Tokenizer.new cs) ls =
        NextResult.ret (some Token.Paragraph) ⟨cs, 0, State.Process⟩) :=
  ⟨fun c rest fuel ls h1 h2 h3 h4 h5 h6 h7 h8 =>
     paragraph_first_step c rest fuel ls h1 h2 h3 h4 h5 h6 h7 h8,
   fun cs fuel ls hf hc => header_fail_step cs fuel ls hf hc⟩

theorem c4_paragraph_fallback_witness :
    nextAux 1 (Tokenizer.new "hi".data) 0 =
      NextResult.ret (some Token.Paragraph) ⟨"hi".data, 0, State.Process⟩ :=
  c4_paragraph_fallback.1 'h' "i".data 0 0 (by decide) (by decide) (by decide)
    (by decide) (by decide) (by decide) (by decide) (by decide)

/-- C4 (counterexample): on the line of four dashes all three recognizers
fail, yet the first token is `Literal "----"`, not `Paragraph`. -/
theorem c4_dashes_counterexample :
    headerCapture "----".data = none ∧
    handleHorizontalRule (Tokenizer.new "----".data) = none ∧
    ulistCapture "----".data = none ∧
    next 100 (Tokenizer.new "----".data) =
      NextResult.ret (some (Token.Literal "----")) ⟨"----".data, 4, State.End⟩ ∧
    Token.Literal "----" ≠ Token.Paragraph :=
  ⟨rfl, rfl, rfl, rfl, by decide⟩

/-- C5 (amended): on a successful header match with `h` leading hashes the
first call returns `Header h` and the cursor advances to `h + 1` — past the
marker run plus exactly one character, not past all following whitespace. -/
theorem c5_header_cursor (cs : List Char) (h fuel ls : Nat)
    (hc : headerCapture cs = some h) :
    nextAux (fuel+1) (Tokenizer.new cs) ls =
      NextResult.ret (some (Token.Header h)) ⟨cs, h + 1, State.Process⟩ :=
  header_first_step cs h fuel ls hc

theorem c5_header_cursor_witness :
    nextAux 1 (Tokenizer.new "# x".data) 0 =
      NextResult.ret (some (Token.Header 1)) ⟨"# x".data, 2, State.Process⟩ :=
  c5_header_cursor "# x".data 1 0 0 (by rfl)

/-- C5 (counterexample): on a header line with two spaces after the hash
the following `Literal` begins with the second space — the cursor did not
advance past all the whitespace after the marker run. -/
theorem c5_two_space_counterexample :
    tokenizeLine "#  x" 100 = RunResult.done [Token.Header 1, Token.Literal " x"] ∧
    RunResult.done [Token.Header 1, Token.Literal " x"] ≠
      RunResult.done [Token.Header 1, Token.Literal "x"] :=
  ⟨rfl, by decide⟩

/-- C6: in the `Process` state at a marker character, a doubled tilde gives
`Strikethrough` advancing 2, a doubled star or underscore gives `Bold`
advancing 2, and any non-doubled marker (including one that ends the line,
whose lookahead defaults to the NUL character) gives `Italic` advancing 1. -/
theorem c6_delimiter_doubling (tk : Tokenizer) (c nxt : Char) (ls fuel : Nat)
    (hs : tk.state = State.Process)
    (hc : tk.line[tk.cursor]? = some c)
    (hm : c = '_' ∨ c = '*' ∨ c = '~')
    (hn : (tk.line[tk.cursor + 1]?).getD (Char.ofNat 0) = nxt) :
    (c = '~' ∧ nxt = '~' →
      nextAux (fuel+1) tk ls =
        NextResult.ret (some Token.Strikethrough) { tk with cursor := tk.cursor + 2 }) ∧
    ((c = '*' ∧ nxt = '*') ∨ (c = '_' ∧ nxt = '_') →
      nextAux (fuel+1) tk ls =
        NextResult.ret (some Token.Bold) { tk with cursor := tk.cursor + 2 }) ∧
    (¬(c = '~' ∧ nxt = '~') ∧ ¬(c = '*' ∧ nxt = '*') ∧ ¬(c = '_' ∧ nxt = '_') →
      nextAux (fuel+1) tk ls =
        NextResult.ret (some Token.Italic) { tk with cursor := tk.cursor + 1 }) := by
  have hstep : ∀ t0 tk0, handleTextModifier tk = (t0, tk0) →
      nextAux (fuel+1) tk ls = NextResult.ret t0 tk0 := by
    intro t0 tk0 hE
    rw [nextAux, hc]
    dsimp only
    rw [hs]
    simp only [reduceCtorEq, and_false, if_false]
    rw [if_pos ⟨hm, trivial⟩, hE]
  have hmod : handleTextModifier tk =
      (if c = '~' ∧ nxt = '~' then
        (some Token.Strikethrough, { tk with cursor := tk.cursor + 2 })
      else if c = '*' ∧ nxt = '*' then
        (some Token.Bold, { tk with cursor := tk.cursor + 2 })
      else if c = '_' ∧ nxt = '_' then
        (some Token.Bold, { tk with cursor := tk.cursor + 2 })
      else
        (some Token.Italic, { tk with cursor := tk.cursor + 1 })) := by
    unfold handleTextModifier
    rw [hc]
    dsimp only
    rw [hn]
  refine ⟨?_, ?_, ?_⟩
  · rintro ⟨hc1, hn1⟩
    apply hstep
    rw [hmod, if_pos ⟨hc1, hn1⟩]
  · rintro (⟨hc1, hn1⟩ | ⟨hc1, hn1⟩)
    · apply hstep
      rw [hmod, if_neg (by rw [hc1, hn1]; simp), if_pos ⟨hc1, hn1⟩]
    · apply hstep
      rw [hmod, if_neg (by rw [hc1, hn1]; simp), if_neg (by rw [hc1, hn1]; simp),
        if_pos ⟨hc1, hn1⟩]
  · rintro ⟨k1, k2, k3⟩
    apply hstep
    rw [hmod, if_neg k1, if_neg k2, if_neg k3]

theorem c6_delimiter_doubling_witness :
    nextAux 1 ⟨"~~x".data, 0, State.Process⟩ 0 =
      NextResult.ret (some Token.Strikethrough) ⟨"~~x".data, 2, State.Process⟩ :=
  (c6_delimiter_doubling ⟨"~~x".data, 0, State.Process⟩ '~' '~' 0 0 rfl rfl
    (Or.inr (Or.inr rfl)) rfl).1 ⟨rfl, rfl⟩

/-- C7: each of the three canonical lines tokenizes to exactly
`HorizontalRule` and then the sentinel, while `"----"` and `"--- "` do not,
and any normal return of `HorizontalRule` — from any state, any cursor —
forces the line to be one of the three canonical strings. -/
theorem c7_horizontal_rule_exact :
    tokenizeLine "---" 100 = RunResult.done [Token.HorizontalRule] ∧
    tokenizeLine "___" 100 = RunResult.done [Token.HorizontalRule] ∧
    tokenizeLine "***" 100 = RunResult.done [Token.HorizontalRule] ∧
    tokenizeLine "----" 100 = RunResult.done [Token.Literal "----"] ∧
    tokenizeLine "--- " 100 = RunResult.done [Token.Literal "--- "] ∧
    (∀ fuel tk ls tk',
      nextAux fuel tk ls = NextResult.ret (some Token.HorizontalRule) tk' →
      tk.line = "---".data ∨ tk.line = "___".data ∨ tk.line = "***".data) :=
  ⟨rfl, rfl, rfl, rfl, rfl, nextAux_hr_line⟩

theorem c7_horizontal_rule_witness :
    "---".data = "---".data ∨ "---".data = "___".data ∨ "---".data = "***".data :=
  c7_horizontal_rule_exact.2.2.2.2.2 5 (Tokenizer.new "---".data) 0
    ⟨"---".data, 0, State.End⟩ rfl

/-- C8: once a call returns the sentinel the state is `End`, and from `End`
every further call (with any positive iteration budget and any
`literal_start`) returns the sentinel again with the tokenizer unchanged. -/
theorem c8_idempotent_exhaustion (fuel ls ls2 fuel2 : Nat) (tk tk' : Tokenizer)
    (h : nextAux fuel tk ls = NextResult.ret none tk') :
    nextAux (fuel2+1) tk' ls2 = NextResult.ret none tk' :=
  nextAux_end fuel2 tk' ls2 ((nextAux_ret_state fuel tk ls none tk' h).2 rfl)

theorem c8_idempotent_witness :
    nextAux 1 ⟨"a".data, 1, State.End⟩ 0 = NextResult.ret none ⟨"a".data, 1, State.End⟩ :=
  c8_idempotent_exhaustion 1 0 0 0 ⟨"a".data, 1, State.Process⟩ ⟨"a".data, 1, State.End⟩ rfl

/-- C9: a fresh tokenizer starts in `Start`; every normal return leaves the
state off `Start`; and a call entered off `Start` never returns `Header`,
`UnorderedList` or `HorizontalRule` — so those tokens only come from the
first call on a line. -/
theorem c9_first_token_invariant :
    (∀ cs, (Tokenizer.new cs).state = State.Start) ∧
    (∀ fuel tk ls t tk', nextAux fuel tk ls = NextResult.ret t tk' →
      tk'.state ≠ State.Start) ∧
    (∀ fuel tk ls t tk', tk.state ≠ State.Start →
      nextAux fuel tk ls = NextResult.ret (some t) tk' →
      (∀ lvl, t ≠ Token.Header lvl) ∧ t ≠ Token.UnorderedList ∧
        t ≠ Token.HorizontalRule) :=
  ⟨fun _ => rfl,
   fun fuel tk ls t tk' h => (nextAux_ret_state fuel tk ls t tk' h).1,
   nextAux_not_start_tokens⟩

theorem c9_first_token_witness :
    (∀ lvl, Token.Literal "- a" ≠ Token.Header lvl) ∧
    Token.Literal "- a" ≠ Token.UnorderedList ∧
    Token.Literal "- a" ≠ Token.HorizontalRule :=
  c9_first_token_invariant.2.2 10 ⟨"- a".data, 0, State.Process⟩ 0
    (Token.Literal "- a") ⟨"- a".data, 3, State.End⟩ (by decide) rfl

/-- C10: a successful header match consumes the hash run plus exactly one
following character whatever it is — concretely, the three-character line
hash-a-b yields `Header 1` then `Literal "b"`: the a is silently dropped. -/
theorem c10_header_consumes_one_char :
    (∀ cs h fuel ls, headerCapture cs = some h →
      nextAux (fuel+1) (Tokenizer.new cs) ls =
        NextResult.ret (some (Token.Header h)) ⟨cs, h + 1, State.Process⟩) ∧
    headerCapture "#ab".data = some 1 ∧
    tokenizeLine "#ab" 100 = RunResult.done [Token.Header 1, Token.Literal "b"] :=
  ⟨fun cs h fuel ls hc => header_first_step cs h fuel ls hc, rfl, rfl⟩

theorem c10_header_witness :
    nextAux 1 (Tokenizer.new "#ab".data) 0 =
      NextResult.ret (some (Token.Header 1)) ⟨"#ab".data, 2, State.Process⟩ :=
  c10_header_consumes_one_char.1 "#ab".data 1 0 0 rfl

end MdParser
